import Mathlib

/-!
Shallow embedding of the cypress-marks test-selection engine:
the boolean filter-expression scanner, parser and evaluator
(src/expression), the tag / name / combined matchers (src/matchers),
and the pytest-style path-spec matcher (src/matchers/path-matcher.ts).

Strings are modelled as `List Char`.  JavaScript string helpers
(`trim`, `toLowerCase`, `includes`, `startsWith`, `split`) are embedded
as explicit functions over `List Char`.  Fallible code (`throw`) is
embedded with `Except`.
-/

/-- ASCII whitespace, as matched by the scanner's regex. -/
def isWS (c : Char) : Bool :=
  c == ' ' || c == '\t' || c == '\n' || c == '\r' || c == '\x0B' || c == '\x0C'

/-- JavaScript `String.prototype.toLowerCase` restricted to ASCII. -/
def lowerChar (c : Char) : Char :=
  if 'A' ≤ c ∧ c ≤ 'Z' then Char.ofNat (c.toNat + 32) else c

/-- Lower-case every character of a string. -/
def lower (s : List Char) : List Char := s.map lowerChar

/-- JavaScript `String.prototype.trim` (both ends). -/
def trim (s : List Char) : List Char :=
  ((s.dropWhile isWS).reverse.dropWhile isWS).reverse

/-- Token types of the expression scanner (src/expression/types.ts). -/
inductive TokenType where
  | LPAREN
  | RPAREN
  | OR
  | AND
  | NOT
  | IDENT
  | EOF
deriving DecidableEq

/-- A token produced by the scanner.  `position` is `Int` because the
source computes it as `this.position - value.length`, which for
parenthesis tokens is evaluated before the cursor advances. -/
structure Token where
  type : TokenType
  value : List Char
  position : Int
deriving DecidableEq

/-- ParseError carries message, character position and source text
(src/expression/types.ts). -/
structure ParseError where
  message : String
  position : Int
  source : List Char
deriving DecidableEq

/-- Expression AST (src/expression/types.ts). -/
inductive ExpressionNode where
  | Identifier (value : List Char)
  | Not (operand : ExpressionNode)
  | And (left : ExpressionNode) (right : ExpressionNode)
  | Or (left : ExpressionNode) (right : ExpressionNode)
deriving DecidableEq

deriving instance DecidableEq for Except

/-- The scanner stops an identifier at whitespace or a parenthesis. -/
def stopChar (c : Char) : Bool :=
  isWS c || c == '(' || c == ')'

/-- `Scanner.scanIdentifierOrKeyword`'s value-accumulating loop:
returns the scanned identifier text and the remaining characters.
The two-character sequence backslash-underscore is copied through as a
unit; a backslash not followed by an underscore is copied literally.
Every step consumes at least one character, so with fuel at least the
character count plus one (as supplied by `tokenizeAux`) the
fuel-exhaustion branch is unreachable; fuel only makes the recursion
structural. -/
def scanIdentAux : Nat → List Char → List Char × List Char
  | 0, _ => ([], [])
  | Nat.succ f, cs =>
    match cs with
    | [] => ([], [])
    | c :: rest =>
      if stopChar c then ([], c :: rest)
      else if c = '\\' then
        match rest with
        | '_' :: rest2 =>
          let p := scanIdentAux f rest2
          ('\\' :: '_' :: p.1, p.2)
        | _ =>
          let p := scanIdentAux f rest
          (c :: p.1, p.2)
      else
        let p := scanIdentAux f rest
        (c :: p.1, p.2)

/-- `scanIdentifierOrKeyword`'s loop with sufficient fuel. -/
def scanIdent (cs : List Char) : List Char × List Char :=
  scanIdentAux (cs.length + 1) cs

/-- Keyword classification of a scanned identifier
(`Scanner.scanIdentifierOrKeyword`, case-insensitive). -/
def keywordType (v : List Char) : TokenType :=
  let lv := lower v
  if lv = ['a', 'n', 'd'] then TokenType.AND
  else if lv = ['o', 'r'] then TokenType.OR
  else if lv = ['n', 'o', 't'] then TokenType.NOT
  else TokenType.IDENT

/-- `Scanner.tokenize`'s main loop over the remaining characters.
`pos` is the cursor `this.position`.  Parenthesis tokens record
`this.position - value.length` with the cursor still on the
parenthesis (the source increments the cursor only after `addToken`),
so their recorded position is the parenthesis index minus one.
Identifier tokens record the cursor after the token minus the value
length, which is the token's start index.
Each loop iteration consumes at least one character, so with the fuel
`scan` supplies (source length plus one) the fuel-exhaustion branch is
unreachable; fuel only makes the recursion structural. -/
def tokenizeAux : Nat → List Char → Nat → Except ParseError (List Token)
  | 0, _, _ => Except.error ⟨"fuel exhausted", -1, []⟩
  | Nat.succ f, cs, pos =>
    match cs with
    | [] => Except.ok []
    | c :: rest =>
      if isWS c then
        tokenizeAux f rest (pos + 1)
      else if c = '(' then do
        let ts ← tokenizeAux f rest (pos + 1)
        Except.ok (⟨TokenType.LPAREN, ['('], (pos : Int) - 1⟩ :: ts)
      else if c = ')' then do
        let ts ← tokenizeAux f rest (pos + 1)
        Except.ok (⟨TokenType.RPAREN, [')'], (pos : Int) - 1⟩ :: ts)
      else
        let p := scanIdent (c :: rest)
        if p.1 = [] then
          Except.error ⟨"Unexpected character", (pos : Int), (c :: rest).take 10⟩
        else
          let consumed := (c :: rest).length - p.2.length
          let newPos := pos + consumed
          do
            let ts ← tokenizeAux f p.2 newPos
            Except.ok (⟨keywordType p.1, p.1, (newPos : Int) - p.1.length⟩ :: ts)

/-- `Scanner`'s constructor: tokenize the whole source and terminate
the stream with an EOF token positioned at the source length. -/
def scan (src : List Char) : Except ParseError (List Token) := do
  let ts ← tokenizeAux (src.length + 1) src 0
  Except.ok (ts ++ [⟨TokenType.EOF, [], (src.length : Int)⟩])

/-- `Scanner.peek`: the current token.  The token list produced by
`scan` always ends in EOF and the cursor never passes it, so the
default is never reached. -/
def peekT (ts : List Token) : Token :=
  ts.headD ⟨TokenType.EOF, [], 0⟩

/-- `Scanner.nextToken`: consume the current token unless it is EOF. -/
def advanceT (ts : List Token) : List Token :=
  match ts with
  | [] => []
  | t :: rest => if t.type = TokenType.EOF then t :: rest else rest

/-- `Parser.parseIdentifier`: expect an IDENT token, otherwise raise a
ParseError naming what was found.  `src` is the (trimmed) source the
Parser was constructed with. -/
def parseIdentifier (src : List Char) (ts : List Token) :
    Except ParseError (ExpressionNode × List Token) :=
  let token := peekT ts
  if token.type ≠ TokenType.IDENT then
    if token.type = TokenType.EOF then
      Except.error ⟨"Unexpected end of expression, expected identifier", token.position, src⟩
    else if token.type = TokenType.RPAREN then
      Except.error ⟨"Unexpected closing parenthesis \")\"", token.position, src⟩
    else if token.type = TokenType.AND ∨ token.type = TokenType.OR then
      Except.error ⟨"Unexpected operator \"" ++ String.mk token.value ++ "\", expected identifier",
        token.position, src⟩
    else
      Except.error ⟨"Unexpected token \"" ++ String.mk token.value ++ "\"", token.position, src⟩
  else
    Except.ok (ExpressionNode.Identifier token.value, advanceT ts)

/-- Error used for the fuel-exhaustion case of the parser functions.
The recursion of `Parser.parseOrExpr`/`parseAndExpr`/`parseNotExpr` is
bounded by the token list, so with the fuel chosen in `parse` this
error is unreachable; it only makes the embedding total. -/
def fuelError (src : List Char) : ParseError :=
  ⟨"fuel exhausted", -1, src⟩

mutual

/-- `Parser.parseOrExpr`: `and_expr ('or' and_expr)*`. -/
def parseOrExpr (src : List Char) : Nat → List Token →
    Except ParseError (ExpressionNode × List Token)
  | 0, _ => Except.error (fuelError src)
  | Nat.succ f, ts => do
    let r ← parseAndExpr src f ts
    parseOrLoop src f r.1 r.2

/-- The `while (match OR)` loop of `Parser.parseOrExpr`, building the
left-associated Or chain. -/
def parseOrLoop (src : List Char) : Nat → ExpressionNode → List Token →
    Except ParseError (ExpressionNode × List Token)
  | 0, _, _ => Except.error (fuelError src)
  | Nat.succ f, left, ts =>
    if (peekT ts).type = TokenType.OR then do
      let r ← parseAndExpr src f (advanceT ts)
      parseOrLoop src f (ExpressionNode.Or left r.1) r.2
    else
      Except.ok (left, ts)

/-- `Parser.parseAndExpr`: `not_expr ('and' not_expr)*`. -/
def parseAndExpr (src : List Char) : Nat → List Token →
    Except ParseError (ExpressionNode × List Token)
  | 0, _ => Except.error (fuelError src)
  | Nat.succ f, ts => do
    let r ← parseNotExpr src f ts
    parseAndLoop src f r.1 r.2

/-- The `while (match AND)` loop of `Parser.parseAndExpr`, building the
left-associated And chain. -/
def parseAndLoop (src : List Char) : Nat → ExpressionNode → List Token →
    Except ParseError (ExpressionNode × List Token)
  | 0, _, _ => Except.error (fuelError src)
  | Nat.succ f, left, ts =>
    if (peekT ts).type = TokenType.AND then do
      let r ← parseNotExpr src f (advanceT ts)
      parseAndLoop src f (ExpressionNode.And left r.1) r.2
    else
      Except.ok (left, ts)

/-- `Parser.parseNotExpr`: `'not' not_expr | '(' expr ')' | identifier`. -/
def parseNotExpr (src : List Char) : Nat → List Token →
    Except ParseError (ExpressionNode × List Token)
  | 0, _ => Except.error (fuelError src)
  | Nat.succ f, ts =>
    if (peekT ts).type = TokenType.NOT then do
      let r ← parseNotExpr src f (advanceT ts)
      Except.ok (ExpressionNode.Not r.1, r.2)
    else if (peekT ts).type = TokenType.LPAREN then do
      let r ← parseOrExpr src f (advanceT ts)
      if (peekT r.2).type ≠ TokenType.RPAREN then
        Except.error ⟨"Expected closing parenthesis \")\"", (peekT r.2).position, src⟩
      else
        Except.ok (r.1, advanceT r.2)
    else
      parseIdentifier src ts

end

/-- `Parser.parse`: empty input yields no AST; otherwise parse a full
`orExpr` and require the cursor to be at EOF, reporting any leftover
token's position and text. -/
def parse (src : List Char) (ts : List Token) :
    Except ParseError (Option ExpressionNode) :=
  if (peekT ts).type = TokenType.EOF then
    Except.ok none
  else do
    let r ← parseOrExpr src (4 * ts.length + 8) ts
    if (peekT r.2).type ≠ TokenType.EOF then
      let token := peekT r.2
      Except.error ⟨"Unexpected token \"" ++ String.mk token.value ++ "\"", token.position, src⟩
    else
      Except.ok (some r.1)

/-- The compiled Expression (src/expression/types.ts):
trimmed source plus optional AST. -/
structure Expression where
  source : List Char
  ast : Option ExpressionNode
deriving DecidableEq

/-- `compile` (src/expression/evaluator.ts): trim, scan, parse. -/
def compile (s : List Char) : Except ParseError Expression := do
  let trimmed := trim s
  let ts ← scan trimmed
  let ast ← parse trimmed ts
  Except.ok ⟨trimmed, ast⟩

/-- `evaluate` (src/expression/evaluator.ts): recursive evaluation of
the AST against a matcher, with short-circuit `&&` / `||`. -/
def evaluate : ExpressionNode → (List Char → Bool) → Bool
  | ExpressionNode.Identifier v, m => m v
  | ExpressionNode.Not n, m => !(evaluate n m)
  | ExpressionNode.And l r, m => evaluate l m && evaluate r m
  | ExpressionNode.Or l r, m => evaluate l m || evaluate r m

/-- Instrumented form of `evaluate` that also records, in order, every
identifier the evaluator passes to the matcher.  The control flow
mirrors the source's short-circuiting exactly: the right operand of
And (resp. Or) is only entered when the left evaluates to true
(resp. false). -/
def evaluateTrace : ExpressionNode → (List Char → Bool) → Bool × List (List Char)
  | ExpressionNode.Identifier v, m => (m v, [v])
  | ExpressionNode.Not n, m =>
    let p := evaluateTrace n m
    (!p.1, p.2)
  | ExpressionNode.And l r, m =>
    let pl := evaluateTrace l m
    if pl.1 then
      let pr := evaluateTrace r m
      (pr.1, pl.2 ++ pr.2)
    else
      (false, pl.2)
  | ExpressionNode.Or l r, m =>
    let pl := evaluateTrace l m
    if pl.1 then
      (true, pl.2)
    else
      let pr := evaluateTrace r m
      (pr.1, pl.2 ++ pr.2)

/-- `CompiledExpression.evaluate`: empty expressions (no AST) always
return true without consulting the matcher. -/
def evalExpr (e : Expression) (m : List Char → Bool) : Bool :=
  match e.ast with
  | none => true
  | some a => evaluate a m

/-- Instrumented form of `CompiledExpression.evaluate`: when the AST is
absent the matcher is never invoked, so the recorded call list is
empty. -/
def evalExprTrace (e : Expression) (m : List Char → Bool) :
    Bool × List (List Char) :=
  match e.ast with
  | none => (true, [])
  | some a => evaluateTrace a m

/-- Context of a tag validation (src/matchers: `validateTag`). -/
inductive TagContext where
  | test
  | expression
deriving DecidableEq

/-- TagValidationError carries the offending string and the context it
was validated in. -/
structure TagValidationError where
  tag : List Char
  context : TagContext
deriving DecidableEq

/-- JavaScript `String.prototype.startsWith('@')`. -/
def startsWithAt (s : List Char) : Bool :=
  match s with
  | '@' :: _ => true
  | _ => false

/-- `validateTag`: a tag must start with the `@` prefix, otherwise a
TagValidationError is raised. -/
def validateTag (tag : List Char) (context : TagContext) :
    Except TagValidationError Unit :=
  if !startsWithAt tag then
    Except.error ⟨tag, context⟩
  else
    Except.ok ()

/-- `createTagMatcher`: validate the identifier (expression context),
then exact, case-sensitive membership in the tag set.  The tag set is
modelled as the list of its elements; JavaScript `Set.has` is
membership under string equality. -/
def createTagMatcher (tags : List (List Char)) (identifier : List Char) :
    Except TagValidationError Bool := do
  validateTag identifier TagContext.expression
  Except.ok (tags.contains identifier)

/-- `processPattern` (src/matchers/name-matcher.ts): backslash-underscore
collapses to a literal underscore, every other underscore becomes a
space, everything else (including a backslash not followed by an
underscore) passes through unchanged. -/
def processPattern : List Char → List Char
  | [] => []
  | '\\' :: '_' :: rest => '_' :: processPattern rest
  | '_' :: rest => ' ' :: processPattern rest
  | c :: rest => c :: processPattern rest

/-- Whether `needle` is a leading segment of `hay`. -/
def leadsList : List Char → List Char → Bool
  | [], _ => true
  | _ :: _, [] => false
  | a :: as, b :: bs => a == b && leadsList as bs

/-- JavaScript `hay.includes(needle)` (substring containment). -/
def strIncludes (hay needle : List Char) : Bool :=
  if leadsList needle hay then true
  else
    match hay with
    | [] => false
    | _ :: rest => strIncludes rest needle

/-- `createNameMatcher`: case-insensitive substring matching of the
processed pattern inside the full test name. -/
def createNameMatcher (name : List Char) (identifier : List Char) : Bool :=
  let lowerName := lower name
  let pattern := lower (processPattern identifier)
  strIncludes lowerName pattern

/-- `createCombinedMatcher`: identifiers starting with `@` are decided
by plain tag-set membership (no `@`-prefix validation, unlike
`createTagMatcher`); all other identifiers go to the name matcher.
Embedded with the same fallible signature as the tag matcher to state
that it never raises. -/
def createCombinedMatcher (name : List Char) (tags : List (List Char))
    (identifier : List Char) : Except TagValidationError Bool :=
  if startsWithAt identifier then
    Except.ok (tags.contains identifier)
  else
    Except.ok (createNameMatcher name identifier)

/-- A parsed `file::suite::test` path spec
(src/matchers/path-matcher.ts). -/
structure PathSpec where
  filePattern : List Char
  suitePath : List (List Char)
  testName : Option (List Char)
deriving DecidableEq

/-- JavaScript `spec.split('::')`: split on the literal two-character
delimiter, leftmost and non-overlapping. -/
def splitOnColons : List Char → List (List Char)
  | [] => [[]]
  | ':' :: ':' :: rest => [] :: splitOnColons rest
  | c :: rest =>
    match splitOnColons rest with
    | [] => [[c]]
    | h :: t => (c :: h) :: t

/-- `parsePathSpec`: component 0 is the file pattern; a single trailing
component is stored as a one-element suite path with no test name; with
two or more trailing components the last is the test name. -/
def parsePathSpec (spec : List Char) : PathSpec :=
  let components := splitOnColons spec
  let filePattern := components.headD []
  let rest := components.tail
  if rest.length = 0 then
    ⟨filePattern, [], none⟩
  else if rest.length = 1 then
    ⟨filePattern, [rest.headD []], none⟩
  else
    ⟨filePattern, rest.dropLast, some (rest.getLastD [])⟩

/-- Path normalization in `matchesFile`: `\` becomes `/`. -/
def normalizeSlashes (s : List Char) : List Char :=
  s.map fun c => if c = '\\' then '/' else c

/-- One atom of the regex that `globMatch` compiles the pattern to.
Each constructor corresponds to one fragment the source emits:
`anySegs` for `**` followed by `/` (regex `(?:.*/)?`), `anyAll` for a
trailing `**` (regex `.*`), `anyNonSlash` for `*` (regex `[^/]*`),
`oneNonSlash` for `?` (regex `[^/]`), and `lit c` for every literal or
regex-escaped character. -/
inductive GAtom where
  | anySegs
  | anyAll
  | anyNonSlash
  | oneNonSlash
  | lit (c : Char)
deriving DecidableEq

/-- The pattern-to-regex loop of `globMatch`, emitting atoms instead of
regex text.  Escaped characters (`.`, escaped metacharacters) and plain
characters all denote a literal character in the regex, hence `lit`. -/
def globToAtoms : List Char → List GAtom
  | [] => []
  | '*' :: '*' :: '/' :: rest => GAtom.anySegs :: globToAtoms rest
  | '*' :: '*' :: rest => GAtom.anyAll :: globToAtoms rest
  | '*' :: rest => GAtom.anyNonSlash :: globToAtoms rest
  | '?' :: rest => GAtom.oneNonSlash :: globToAtoms rest
  | c :: rest => GAtom.lit c :: globToAtoms rest

mutual

/-- Semantics of the anchored, case-insensitive regex `globMatch`
builds: `gmatch fuel atoms s` holds iff the whole of `s` matches the
atom sequence.  The `anySegs`, `anyAll` and `anyNonSlash` cases
enumerate the ways the regex engine can split the string (the regex
`(?:.*/)?` either matches nothing, or some prefix ending at a `/`).
Every recursive call strictly decreases the total length of the atom
list plus the string, so with the fuel `globMatch` supplies the
fuel-exhaustion branch is unreachable. -/
def gmatch : Nat → List GAtom → List Char → Bool
  | 0, _, _ => false
  | Nat.succ f, atoms, s =>
    match atoms, s with
    | [], [] => true
    | [], _ :: _ => false
    | GAtom.anySegs :: as, s2 => gmatch f as s2 || gmatchSegs f as s2
    | GAtom.anyAll :: as, [] => gmatch f as []
    | GAtom.anyAll :: as, c :: rest =>
      gmatch f as (c :: rest) || gmatch f (GAtom.anyAll :: as) rest
    | GAtom.anyNonSlash :: as, [] => gmatch f as []
    | GAtom.anyNonSlash :: as, c :: rest =>
      gmatch f as (c :: rest) || (!(c == '/') && gmatch f (GAtom.anyNonSlash :: as) rest)
    | GAtom.oneNonSlash :: _, [] => false
    | GAtom.oneNonSlash :: as, c :: rest => !(c == '/') && gmatch f as rest
    | GAtom.lit _ :: _, [] => false
    | GAtom.lit ch :: as, c :: rest => (lowerChar c == lowerChar ch) && gmatch f as rest

/-- Matching of `.*/` followed by the remaining atoms: some prefix of
the string, then a slash, then the rest. -/
def gmatchSegs : Nat → List GAtom → List Char → Bool
  | 0, _, _ => false
  | Nat.succ f, as, s =>
    match s with
    | [] => false
    | c :: rest => (c == '/' && gmatch f as rest) || gmatchSegs f as rest

end

/-- `globMatch`: compile the pattern and test the path against it.  The
source wraps the regex construction in try/catch with a permissive
fallback, but every emitted fragment is valid regex syntax (all
metacharacters are handled or escaped), so the fallback is
unreachable. -/
def globMatch (path pattern : List Char) : Bool :=
  let atoms := globToAtoms pattern
  gmatch (atoms.length + path.length + 1) atoms path

/-- Whether `sfx` is a trailing segment of `hay`
(JavaScript `hay.endsWith(sfx)`). -/
def endsWithList (hay sfx : List Char) : Bool :=
  leadsList sfx.reverse hay.reverse

/-- `normalizedPath.split('/').pop() || ''`: the characters after the
last slash. -/
def lastSegment (s : List Char) : List Char :=
  (s.reverse.takeWhile (fun c => !(c == '/'))).reverse

/-- `matchesFile`: glob matching when the pattern has wildcards,
otherwise exact match, path-suffix match, or bare-filename match. -/
def matchesFile (filePath : List Char) (spec : PathSpec) : Bool :=
  let pattern := spec.filePattern
  let normalizedPath := normalizeSlashes filePath
  let normalizedPattern := normalizeSlashes pattern
  if pattern.contains '*' || pattern.contains '?' then
    globMatch normalizedPath normalizedPattern
  else if normalizedPath = normalizedPattern then true
  else if endsWithList normalizedPath ('/' :: normalizedPattern) then true
  else lastSegment normalizedPath = normalizedPattern

/-- The inner `while` of `matchesSuitePath`: scan forward from the
cursor for a suite name containing the component (case-insensitively);
return the suite names after the hit, or none when exhausted. -/
def findForward (comp : List Char) : List (List Char) → Option (List (List Char))
  | [] => none
  | n :: rest =>
    if strIncludes (lower n) (lower comp) then some rest
    else findForward comp rest

/-- The outer `for` of `matchesSuitePath`: match each successive suite
path component forward of the cursor. -/
def suiteWalk : List (List Char) → List (List Char) → Bool
  | _, [] => true
  | names, comp :: comps =>
    match findForward comp names with
    | none => false
    | some rest => suiteWalk rest comps

/-- `matchesSuitePath`: empty suite path always matches; empty suite
names never match a non-empty suite path; otherwise walk with a single
forward-only cursor. -/
def matchesSuitePath (suiteNames suitePath : List (List Char)) : Bool :=
  if suitePath.length = 0 then true
  else if suiteNames.length = 0 then false
  else suiteWalk suiteNames suitePath

/-- `matchesTest`: no suite path and no test name matches everything; a
non-empty suite path must match the suite names; a present test name
must be a case-insensitive substring of the candidate test name. -/
def matchesTest (suiteNames : List (List Char)) (testName : List Char)
    (spec : PathSpec) : Bool :=
  if spec.suitePath.length = 0 ∧ spec.testName = none then true
  else if 0 < spec.suitePath.length ∧ matchesSuitePath suiteNames spec.suitePath = false then
    false
  else
    match spec.testName with
    | none => true
    | some t => if strIncludes (lower testName) (lower t) = false then false else true

/-- Whether a string contains the two-character sequence `::`
(used to state claims about single-component path specs). -/
def hasColons : List Char → Bool
  | [] => false
  | ':' :: ':' :: _ => true
  | _ :: rest => hasColons rest

/-!  Theorems.  -/

/-- The boolean computed by the instrumented evaluator agrees with
`evaluate`. -/
theorem evaluateTrace_fst (n : ExpressionNode) (m : List Char → Bool) :
    (evaluateTrace n m).1 = evaluate n m := by
  induction n with
  | Identifier v => rfl
  | Not o ih => simp [evaluate, evaluateTrace, ih]
  | And l r ihl ihr =>
    simp only [evaluate, evaluateTrace]
    rw [ihl]
    cases h : evaluate l m <;> simp [ihr]
  | Or l r ihl ihr =>
    simp only [evaluate, evaluateTrace]
    rw [ihl]
    cases h : evaluate l m <;> simp [ihr]

/-- C1: for every string whose trim is empty, `compile` yields an
Expression with no AST, and evaluating that Expression returns true for
every matcher with an empty invocation trace — the matcher (even one
that always answers false, or one that would raise) is never invoked. -/
theorem c1_trimEmpty_alwaysTrue_noMatcherCall (s : List Char) (h : trim s = []) :
    ∃ e : Expression, compile s = Except.ok e ∧ e.ast = none ∧
      ∀ m : List Char → Bool, evalExpr e m = true ∧ evalExprTrace e m = (true, []) := by
  refine ⟨⟨[], none⟩, ?_, rfl, fun m => ⟨rfl, rfl⟩⟩
  unfold compile
  rw [h]
  decide

/-- Witness for C1 at the concrete whitespace-only input. -/
theorem c1_witness :
    trim [' ', ' '] = [] ∧
      ∃ e : Expression, compile [' ', ' '] = Except.ok e ∧ e.ast = none ∧
        ∀ m : List Char → Bool, evalExpr e m = true ∧ evalExprTrace e m = (true, []) :=
  ⟨by decide, c1_trimEmpty_alwaysTrue_noMatcherCall [' ', ' '] (by decide)⟩

/-- C2: AND binds tighter than OR, NOT tighter than both, and AND/OR
chains are built left-associatively. -/
theorem c2_precedence_and_associativity :
    compile ['a', ' ', 'o', 'r', ' ', 'b', ' ', 'a', 'n', 'd', ' ', 'c'] =
      Except.ok ⟨['a', ' ', 'o', 'r', ' ', 'b', ' ', 'a', 'n', 'd', ' ', 'c'],
        some (ExpressionNode.Or (ExpressionNode.Identifier ['a'])
          (ExpressionNode.And (ExpressionNode.Identifier ['b'])
            (ExpressionNode.Identifier ['c'])))⟩ ∧
    compile ['n', 'o', 't', ' ', 'a', ' ', 'a', 'n', 'd', ' ', 'b'] =
      Except.ok ⟨['n', 'o', 't', ' ', 'a', ' ', 'a', 'n', 'd', ' ', 'b'],
        some (ExpressionNode.And (ExpressionNode.Not (ExpressionNode.Identifier ['a']))
          (ExpressionNode.Identifier ['b']))⟩ ∧
    compile ['a', ' ', 'a', 'n', 'd', ' ', 'b', ' ', 'a', 'n', 'd', ' ', 'c'] =
      Except.ok ⟨['a', ' ', 'a', 'n', 'd', ' ', 'b', ' ', 'a', 'n', 'd', ' ', 'c'],
        some (ExpressionNode.And
          (ExpressionNode.And (ExpressionNode.Identifier ['a'])
            (ExpressionNode.Identifier ['b']))
          (ExpressionNode.Identifier ['c']))⟩ := by
  refine ⟨?_, ?_, ?_⟩ <;> decide

/-- Short-circuit And: when the left operand evaluates to false, the
instrumented evaluation of `And l r` is exactly that of `l` — the
matcher is never invoked on anything inside `r`. -/
theorem andTrace_of_left_false (l r : ExpressionNode) (m : List Char → Bool)
    (h : evaluate l m = false) :
    evaluateTrace (ExpressionNode.And l r) m = evaluateTrace l m := by
  have h1 : (evaluateTrace l m).1 = false := (evaluateTrace_fst l m).trans h
  simp only [evaluateTrace, h1, Bool.false_eq_true, if_false]
  exact Prod.ext h1.symm rfl

/-- Short-circuit Or: when the left operand evaluates to true, the
instrumented evaluation of `Or l r` is exactly that of `l`. -/
theorem orTrace_of_left_true (l r : ExpressionNode) (m : List Char → Bool)
    (h : evaluate l m = true) :
    evaluateTrace (ExpressionNode.Or l r) m = evaluateTrace l m := by
  have h1 : (evaluateTrace l m).1 = true := (evaluateTrace_fst l m).trans h
  simp only [evaluateTrace, h1, if_true]
  exact Prod.ext h1.symm rfl

/-- C3: evaluation short-circuits.  For all AST nodes `a`, `b` and
every matcher `m`: if `a` evaluates to false, evaluating `And a b`
produces the same invocation trace as evaluating `a` alone (so `m` is
never invoked on any identifier inside `b`), and dually for `Or` when
`a` evaluates to true. -/
theorem c3_short_circuit (a b : ExpressionNode) (m : List Char → Bool) :
    (evaluate a m = false →
      evaluateTrace (ExpressionNode.And a b) m = evaluateTrace a m) ∧
    (evaluate a m = true →
      evaluateTrace (ExpressionNode.Or a b) m = evaluateTrace a m) :=
  ⟨andTrace_of_left_false a b m, orTrace_of_left_true a b m⟩

/-- Witness for C3 at concrete nodes and matchers. -/
theorem c3_witness :
    (evaluate (ExpressionNode.Identifier ['x']) (fun _ => false) = false ∧
      evaluateTrace
          (ExpressionNode.And (ExpressionNode.Identifier ['x'])
            (ExpressionNode.Identifier ['y'])) (fun _ => false) =
        evaluateTrace (ExpressionNode.Identifier ['x']) (fun _ => false)) ∧
    (evaluate (ExpressionNode.Identifier ['x']) (fun _ => true) = true ∧
      evaluateTrace
          (ExpressionNode.Or (ExpressionNode.Identifier ['x'])
            (ExpressionNode.Identifier ['y'])) (fun _ => true) =
        evaluateTrace (ExpressionNode.Identifier ['x']) (fun _ => true)) :=
  ⟨⟨rfl, (c3_short_circuit (ExpressionNode.Identifier ['x'])
      (ExpressionNode.Identifier ['y']) (fun _ => false)).1 rfl⟩,
    ⟨rfl, (c3_short_circuit (ExpressionNode.Identifier ['x'])
      (ExpressionNode.Identifier ['y']) (fun _ => true)).2 rfl⟩⟩

/-- C5 evaluation: `compile "@smoke and"` reports position 10 (the
end-of-input position, as the claim states), but `compile "@smoke)"`
reports position 5, not 6: `Scanner.addToken` computes
`this.position - value.length` before the cursor is advanced past the
parenthesis, so parenthesis tokens record their index minus one.  A
lone `)` even yields position -1, an impossible source offset. -/
theorem c5_parse_error_positions :
    compile ['@', 's', 'm', 'o', 'k', 'e', ' ', 'a', 'n', 'd'] =
      Except.error ⟨"Unexpected end of expression, expected identifier", 10,
        ['@', 's', 'm', 'o', 'k', 'e', ' ', 'a', 'n', 'd']⟩ ∧
    compile ['@', 's', 'm', 'o', 'k', 'e', ')'] =
      Except.error ⟨"Unexpected token \")\"", 5, ['@', 's', 'm', 'o', 'k', 'e', ')']⟩ ∧
    compile [')'] =
      Except.error ⟨"Unexpected closing parenthesis \")\"", -1, [')']⟩ := by
  refine ⟨?_, ?_, ?_⟩ <;> decide

/-- C4: the tag matcher raises a tag-validation error on `matcher(id)`
if and only if `id` does not start with `@` — regardless of the tag
set, including the empty set, and on every call (the matcher is a pure
function of its argument, so repeated calls behave identically) — and
when `id` does start with `@` it returns exact, case-sensitive set
membership, so `@Smoke` does not match a set containing only
`@smoke`. -/
theorem c4_tag_matcher_validation :
    (∀ (T : List (List Char)) (id : List Char),
      (startsWithAt id = false →
        createTagMatcher T id = Except.error ⟨id, TagContext.expression⟩) ∧
      (startsWithAt id = true →
        createTagMatcher T id = Except.ok (T.contains id))) ∧
    createTagMatcher [['@', 's', 'm', 'o', 'k', 'e']] ['@', 'S', 'm', 'o', 'k', 'e'] =
      Except.ok false := by
  refine ⟨fun T id => ⟨fun h => ?_, fun h => ?_⟩, by decide⟩
  · have hv : validateTag id TagContext.expression =
        Except.error ⟨id, TagContext.expression⟩ := by
      unfold validateTag
      rw [h]
      rfl
    unfold createTagMatcher
    rw [hv]
    rfl
  · have hv : validateTag id TagContext.expression = Except.ok () := by
      unfold validateTag
      rw [h]
      rfl
    unfold createTagMatcher
    rw [hv]
    rfl

/-- Witness for C4: a non-prefixed identifier errors even with an empty
tag set; a prefixed identifier is decided by membership. -/
theorem c4_witness :
    (startsWithAt ['s'] = false ∧
      createTagMatcher [] ['s'] = Except.error ⟨['s'], TagContext.expression⟩) ∧
    (startsWithAt ['@', 'x'] = true ∧
      createTagMatcher [] ['@', 'x'] = Except.ok (List.contains [] ['@', 'x'])) :=
  ⟨⟨rfl, (c4_tag_matcher_validation.1 [] ['s']).1 rfl⟩,
    ⟨rfl, (c4_tag_matcher_validation.1 [] ['@', 'x']).2 rfl⟩⟩

/-- C9: `processPattern` collapses backslash-underscore to a literal
underscore, turns every other underscore into a space, and passes every
other character through — in particular it is the identity on every
string containing no underscore, and maps `a\_b` to `a_b` and `a_b` to
`a b`. -/
theorem c9_processPattern (p : List Char) (h : ¬ '_' ∈ p) :
    processPattern ['a', '\\', '_', 'b'] = ['a', '_', 'b'] ∧
    processPattern ['a', '_', 'b'] = ['a', ' ', 'b'] ∧
    processPattern p = p ∧
    processPattern (processPattern p) = processPattern p := by
  have hid : ∀ q : List Char, ¬ '_' ∈ q → processPattern q = q := by
    intro q
    induction q using processPattern.induct with
    | case1 => intro _; rfl
    | case2 rest ih =>
      intro hq
      exact absurd (by simp) hq
    | case3 rest ih =>
      intro hq
      exact absurd (by simp) hq
    | case4 c rest h1 h2 ih =>
      intro hq
      have hr : ¬ '_' ∈ rest := fun hm => hq (List.mem_cons_of_mem c hm)
      rw [processPattern.eq_def]
      split
      · next heq => exact absurd heq (List.cons_ne_nil c rest)
      · next r2 heq =>
        rw [List.cons.injEq] at heq
        exact (h1 r2 heq.1 heq.2).elim
      · next r heq =>
        rw [List.cons.injEq] at heq
        exact (h2 heq.1).elim
      · next c2 r heq =>
        rw [List.cons.injEq] at heq
        rw [← heq.1, ← heq.2]
        rw [ih hr]
  refine ⟨by decide, by decide, hid p h, ?_⟩
  rw [hid p h, hid p h]

/-- Witness for C9 at a concrete underscore-free string. -/
theorem c9_witness :
    ¬ '_' ∈ ['a', 'b', '\\'] ∧
      (processPattern ['a', '\\', '_', 'b'] = ['a', '_', 'b'] ∧
        processPattern ['a', '_', 'b'] = ['a', ' ', 'b'] ∧
        processPattern ['a', 'b', '\\'] = ['a', 'b', '\\'] ∧
        processPattern (processPattern ['a', 'b', '\\']) = processPattern ['a', 'b', '\\']) :=
  ⟨by decide, c9_processPattern ['a', 'b', '\\'] (by decide)⟩

/-- C10: the combined matcher is total — for every test name, tag set
and identifier it returns a boolean and never raises.  An identifier
starting with `@` is decided by plain set membership with no
`@`-prefix validation (so, unlike the tag matcher, no tag-validation
error is possible), and any other identifier is decided by the name
matcher's case-insensitive substring test. -/
theorem c10_combined_matcher_total
    (name : List Char) (T : List (List Char)) (id : List Char) :
    (∃ b : Bool, createCombinedMatcher name T id = Except.ok b) ∧
    (startsWithAt id = true →
      createCombinedMatcher name T id = Except.ok (T.contains id)) ∧
    (startsWithAt id = false →
      createCombinedMatcher name T id = Except.ok (createNameMatcher name id)) := by
  refine ⟨?_, fun h => by simp [createCombinedMatcher, h], fun h => by simp [createCombinedMatcher, h]⟩
  unfold createCombinedMatcher
  by_cases h : startsWithAt id = true
  · exact ⟨T.contains id, by simp [h]⟩
  · exact ⟨createNameMatcher name id, by simp [h]⟩

/-- Witness for C10: a tag-shaped identifier (which would make the tag
matcher raise if unprefixed — here it is prefixed and decided by
membership) and a plain identifier decided by the name matcher. -/
theorem c10_witness :
    (startsWithAt ['@', 'a'] = true ∧
      createCombinedMatcher ['t'] [] ['@', 'a'] = Except.ok (List.contains [] ['@', 'a'])) ∧
    (startsWithAt ['t'] = false ∧
      createCombinedMatcher ['t'] [] ['t'] = Except.ok (createNameMatcher ['t'] ['t'])) :=
  ⟨⟨rfl, (c10_combined_matcher_total ['t'] [] ['@', 'a']).2.1 rfl⟩,
    ⟨rfl, (c10_combined_matcher_total ['t'] [] ['t']).2.2 rfl⟩⟩


/-- `splitOnColons` always yields at least one component. -/
theorem splitOnColons_ne_nil (X : List Char) : splitOnColons X ≠ [] := by
  rw [splitOnColons.eq_def]
  split
  · simp
  · simp
  · split
    · simp
    · simp

/-- A string with no `::` splits into itself alone. -/
theorem splitOnColons_of_no_colons (X : List Char) :
    hasColons X = false → splitOnColons X = [X] := by
  induction X using splitOnColons.induct with
  | case1 => intro _; rfl
  | case2 rest ih =>
    intro h
    simp [hasColons] at h
  | case3 c rest h1 hnil ih =>
    intro h
    exact absurd hnil (splitOnColons_ne_nil rest)
  | case4 c rest h1 hh ht hsp ih =>
    intro h
    have hr : hasColons rest = false := by
      rw [hasColons.eq_def] at h
      split at h
      · next heq => exact absurd heq (List.cons_ne_nil c rest)
      · next heq => exact absurd h (by simp)
      · next c2 r heq =>
        rw [List.cons.injEq] at heq
        rw [heq.2]
        exact h
    have hrr : splitOnColons rest = [rest] := ih hr
    rw [splitOnColons.eq_def]
    split
    · next heq => exact absurd heq (List.cons_ne_nil c rest)
    · next r heq =>
      rw [List.cons.injEq] at heq
      exact (h1 r heq.1 heq.2).elim
    · next c2 r heq =>
      rw [List.cons.injEq] at heq
      rw [← heq.1, ← heq.2, hrr]
/-- `findForward` finds a hit exactly when some suite name contains the
component (case-insensitively). -/
theorem findForward_isSome (comp : List Char) (ns : List (List Char)) :
    (findForward comp ns).isSome =
      ns.any (fun n => strIncludes (lower n) (lower comp)) := by
  induction ns with
  | nil => rfl
  | cons n rest ih =>
    by_cases h : strIncludes (lower n) (lower comp) = true
    · simp [findForward, h]
    · rw [Bool.not_eq_true] at h
      simp [findForward, h, ih]

/-- A one-element suite path matches exactly when some suite name
contains it (case-insensitively). -/
theorem matchesSuitePath_single (sn : List (List Char)) (X : List Char) :
    matchesSuitePath sn [X] =
      sn.any (fun n => strIncludes (lower n) (lower X)) := by
  unfold matchesSuitePath
  cases sn with
  | nil => simp
  | cons n rest =>
    simp only [List.length_cons, List.length_nil]
    have hsw : suiteWalk (n :: rest) [X] = (findForward X (n :: rest)).isSome := by
      unfold suiteWalk
      cases hf : findForward X (n :: rest) <;> simp [suiteWalk]
    simp only [if_neg (by omega : ¬(0 + 1 = 0)), if_neg (by omega : ¬(rest.length + 1 = 0))]
    rw [hsw, findForward_isSome]

/-- C6: for every string `X` with no `::`, `parsePathSpec` stores the
single trailing component of `f::X` as a one-element suite path with no
test name, and `matchesTest` then returns true exactly when `X` is a
case-insensitive substring of some suite name — the candidate test name
`tn` is never consulted (the result is the same for every `tn`), with
no fallback to test-name matching. -/
theorem c6_single_trailing_component (X : List Char) (h : hasColons X = false)
    (sn : List (List Char)) (tn : List Char) :
    parsePathSpec ('f' :: ':' :: ':' :: X) = ⟨['f'], [X], none⟩ ∧
    matchesTest sn tn (parsePathSpec ('f' :: ':' :: ':' :: X)) =
      sn.any (fun n => strIncludes (lower n) (lower X)) := by
  have hsplit : splitOnColons ('f' :: ':' :: ':' :: X) = [['f'], X] := by
    have h0 : splitOnColons ('f' :: ':' :: ':' :: X) = ['f'] :: splitOnColons X := rfl
    rw [h0, splitOnColons_of_no_colons X h]
  have hparse : parsePathSpec ('f' :: ':' :: ':' :: X) = ⟨['f'], [X], none⟩ := by
    unfold parsePathSpec
    rw [hsplit]
    rfl
  refine ⟨hparse, ?_⟩
  rw [hparse]
  have hmt : matchesTest sn tn ⟨['f'], [X], none⟩ = matchesSuitePath sn [X] := by
    unfold matchesTest
    cases hm : matchesSuitePath sn [X] <;> simp [hm]
  rw [hmt, matchesSuitePath_single]

/-- Witness for C6 at a concrete component and suite list. -/
theorem c6_witness :
    hasColons ['A'] = false ∧
      (parsePathSpec ['f', ':', ':', 'A'] = ⟨['f'], [['A']], none⟩ ∧
        matchesTest [['x', 'a'], ['b']] ['t'] (parsePathSpec ['f', ':', ':', 'A']) =
          List.any [['x', 'a'], ['b']] (fun n => strIncludes (lower n) (lower ['A']))) :=
  ⟨by decide, c6_single_trailing_component ['A'] (by decide) [['x', 'a'], ['b']] ['t']⟩

/-- `suiteWalk` with no suite names and a pending component fails. -/
theorem suiteWalk_nil_names (c : List Char) (cs : List (List Char)) :
    suiteWalk [] (c :: cs) = false := rfl

/-- When the cursor's suite name contains the component, the walk
consumes both and continues. -/
theorem suiteWalk_cons_hit (n c : List Char) (ns cs : List (List Char))
    (h : strIncludes (lower n) (lower c) = true) :
    suiteWalk (n :: ns) (c :: cs) = suiteWalk ns cs := by
  simp [suiteWalk, findForward, h]

/-- When the cursor's suite name does not contain the component, the
cursor skips it. -/
theorem suiteWalk_cons_miss (n c : List Char) (ns cs : List (List Char))
    (h : strIncludes (lower n) (lower c) = false) :
    suiteWalk (n :: ns) (c :: cs) = suiteWalk ns (c :: cs) := by
  have hf : findForward c (n :: ns) = findForward c ns := by
    simp [findForward, h]
  simp only [suiteWalk]
  rw [hf]

/-- The forward-only cursor walk succeeds exactly when the suite path
can be matched against an order-preserving selection of the suite
names, each selected name containing its component case-insensitively
(intervening names may be skipped). -/
theorem suiteWalk_iff_selection (sn sp : List (List Char)) :
    suiteWalk sn sp = true ↔
      ∃ sel : List (List Char), List.Sublist sel sn ∧
        List.Forall₂ (fun c n => strIncludes (lower n) (lower c) = true) sp sel := by
  induction sn generalizing sp with
  | nil =>
    cases sp with
    | nil =>
      constructor
      · intro _
        exact ⟨[], List.nil_sublist [], List.Forall₂.nil⟩
      · intro _
        rfl
    | cons c cs =>
      rw [suiteWalk_nil_names]
      constructor
      · intro hfalse
        exact absurd hfalse (by simp)
      · rintro ⟨sel, hsub, hf⟩
        rw [List.sublist_nil] at hsub
        subst hsub
        cases hf
  | cons n ns ih =>
    cases sp with
    | nil =>
      constructor
      · intro _
        exact ⟨[], List.nil_sublist (n :: ns), List.Forall₂.nil⟩
      · intro _
        rfl
    | cons c cs =>
      by_cases h : strIncludes (lower n) (lower c) = true
      · rw [suiteWalk_cons_hit n c ns cs h, ih cs]
        constructor
        · rintro ⟨sel, hsub, hf⟩
          exact ⟨n :: sel, List.Sublist.cons₂ n hsub, List.Forall₂.cons h hf⟩
        · rintro ⟨sel, hsub, hf⟩
          cases hf with
          | cons hcn hf2 =>
            cases hsub with
            | cons a hsub2 => exact ⟨_, List.sublist_of_cons_sublist hsub2, hf2⟩
            | cons₂ a hsub2 => exact ⟨_, hsub2, hf2⟩
      · rw [Bool.not_eq_true] at h
        rw [suiteWalk_cons_miss n c ns cs h, ih (c :: cs)]
        constructor
        · rintro ⟨sel, hsub, hf⟩
          exact ⟨sel, List.Sublist.cons n hsub, hf⟩
        · rintro ⟨sel, hsub, hf⟩
          cases hf with
          | cons hcn hf2 =>
            cases hsub with
            | cons a hsub2 => exact ⟨_, hsub2, List.Forall₂.cons hcn hf2⟩
            | cons₂ a hsub2 => exact absurd hcn (by rw [h]; simp)

/-- `matchesSuitePath` agrees with the cursor walk on all inputs (its
early-out branches coincide with the walk's base cases). -/
theorem matchesSuitePath_eq_suiteWalk (sn sp : List (List Char)) :
    matchesSuitePath sn sp = suiteWalk sn sp := by
  unfold matchesSuitePath
  cases sp with
  | nil => simp [suiteWalk]
  | cons c cs =>
    cases sn with
    | nil => simp [suiteWalk_nil_names]
    | cons n ns => simp

/-- C7: ordered suite-path matching is the forward-only cursor walk:
it succeeds exactly when the suite-path components can be assigned, in
order, to a subsequence of the suite names (intervening names
skippable), each chosen name containing its component as a
case-insensitive substring — and it fails when a component exhausts the
remaining names; in particular `["A","X","B"]` matches the suite path
of `f::A::B::t` while the reversed `["B","A"]` does not. -/
theorem c7_forward_cursor_suite_matching :
    (∀ sn sp : List (List Char),
      matchesSuitePath sn sp = true ↔
        ∃ sel : List (List Char), List.Sublist sel sn ∧
          List.Forall₂ (fun c n => strIncludes (lower n) (lower c) = true) sp sel) ∧
    matchesTest [['A'], ['X'], ['B']] ['t']
      (parsePathSpec ['f', ':', ':', 'A', ':', ':', 'B', ':', ':', 't']) = true ∧
    matchesTest [['B'], ['A']] ['t']
      (parsePathSpec ['f', ':', ':', 'A', ':', ':', 'B', ':', ':', 't']) = false :=
  ⟨fun sn sp => (matchesSuitePath_eq_suiteWalk sn sp) ▸ suiteWalk_iff_selection sn sp,
    by decide, by decide⟩

/-- C8: glob file matching is anchored and case-insensitive, `**/`
spans whole path segments, `*` spans non-slash runs and `?` exactly one
non-slash character: `**/*.cy.ts` matches a nested path (also in upper
case), while `cypress/e2e/**/*.cy.ts` does not match a path missing the
pattern's leading directories (the match is anchored at the start), and
`?` does not cross a slash. -/
theorem c8_glob_matching :
    matchesFile
      ['c', 'y', 'p', 'r', 'e', 's', 's', '/', 'e', '2', 'e', '/', 'a', 'u', 't', 'h', '/',
        'l', 'o', 'g', 'i', 'n', '.', 'c', 'y', '.', 't', 's']
      (parsePathSpec ['*', '*', '/', '*', '.', 'c', 'y', '.', 't', 's']) = true ∧
    matchesFile
      ['e', '2', 'e', '/', 'l', 'o', 'g', 'i', 'n', '.', 'c', 'y', '.', 't', 's']
      (parsePathSpec ['c', 'y', 'p', 'r', 'e', 's', 's', '/', 'e', '2', 'e', '/', '*', '*',
        '/', '*', '.', 'c', 'y', '.', 't', 's']) = false ∧
    matchesFile
      ['C', 'Y', 'P', 'R', 'E', 'S', 'S', '/', 'E', '2', 'E', '/', 'A', 'U', 'T', 'H', '/',
        'L', 'O', 'G', 'I', 'N', '.', 'C', 'Y', '.', 'T', 'S']
      (parsePathSpec ['*', '*', '/', '*', '.', 'c', 'y', '.', 't', 's']) = true ∧
    matchesFile ['a', 'b', '.', 't', 's']
      (parsePathSpec ['a', '?', '.', 't', 's']) = true ∧
    matchesFile ['a', '/', '.', 't', 's']
      (parsePathSpec ['a', '?', '.', 't', 's']) = false := by
  refine ⟨?_, ?_, ?_, ?_, ?_⟩ <;> decide
